import Mathlib

/-!
Shallow embedding of the delivery-acknowledgement pipeline of the
`python-pubsub` streaming subscriber:

* `google/cloud/pubsub_v1/subscriber/_protocol/dispatcher.py`
  (the batching `Dispatcher`), and
* `google/cloud/pubsub_v1/subscriber/message.py`
  (the `Message` handle).

Each collaborator call the code makes (`manager.send`, `leaser.add`,
`leaser.remove`, `manager.ack_histogram.add`,
`manager.activate_ordering_keys`, `manager.maybe_pause_consumer`,
`manager.maybe_resume_consumer`, `warnings.warn`, `queue.put`) is an
`Event`; each method of the source becomes a pure function returning
the list of events it performs, in order.
-/

namespace PubSub

/-- Modelled from the spec: `requests.LeaseRequest{ack_id, byte_size, ordering_key}`
(the `requests` module itself is not in the provided sources; field names
and order follow spec section 3 and every use site in `dispatcher.py` /
`message.py`). -/
structure LeaseRequest where
  ack_id : String
  byte_size : Nat
  ordering_key : String
  deriving DecidableEq, Repr

/-- Modelled from the spec: `requests.ModAckRequest{ack_id, seconds}`. -/
structure ModAckRequest where
  ack_id : String
  seconds : Int
  deriving DecidableEq, Repr

/-- Modelled from the spec: `requests.AckRequest{ack_id, byte_size,
time_to_ack (optional), ordering_key}`. -/
structure AckRequest where
  ack_id : String
  byte_size : Nat
  time_to_ack : Option Int
  ordering_key : String
  deriving DecidableEq, Repr

/-- Modelled from the spec: `requests.NackRequest{ack_id, byte_size, ordering_key}`. -/
structure NackRequest where
  ack_id : String
  byte_size : Nat
  ordering_key : String
  deriving DecidableEq, Repr

/-- Modelled from the spec: `requests.DropRequest{ack_id, byte_size, ordering_key}`. -/
structure DropRequest where
  ack_id : String
  byte_size : Nat
  ordering_key : String
  deriving DecidableEq, Repr

/-- The `RequestItem` union of `dispatcher.py`, plus `unknown` for any value
outside the five known variants (the `else` branch of `dispatch_callback`'s
classification loop warns about such items). -/
inductive RequestItem where
  | lease (r : LeaseRequest)
  | modack (r : ModAckRequest)
  | ack (r : AckRequest)
  | nack (r : NackRequest)
  | drop (r : DropRequest)
  | unknown (tag : String)
  deriving DecidableEq, Repr

/-- The union `Union[AckRequest, DropRequest, NackRequest]` that
`Dispatcher.drop` accepts; this sum is that union. -/
inductive Removable where
  | ofAck (r : AckRequest)
  | ofNack (r : NackRequest)
  | ofDrop (r : DropRequest)
  deriving DecidableEq, Repr

/-- The `ordering_key` attribute that `Dispatcher.drop` reads off each item. -/
def Removable.ordering_key : Removable → String
  | .ofAck r => r.ordering_key
  | .ofNack r => r.ordering_key
  | .ofDrop r => r.ordering_key

/-- The `ack_id` attribute (leaser contract: each item exposes `ack_id`,
`byte_size`, `ordering_key`). -/
def Removable.ack_id : Removable → String
  | .ofAck r => r.ack_id
  | .ofNack r => r.ack_id
  | .ofDrop r => r.ack_id

/-- The `byte_size` attribute. -/
def Removable.byte_size : Removable → Nat
  | .ofAck r => r.byte_size
  | .ofNack r => r.byte_size
  | .ofDrop r => r.byte_size

/-- The `gapic_types.StreamingPullRequest`, restricted to the fields the
dispatcher populates: `ack_ids`, and the positionally paired
`modify_deadline_ack_ids` / `modify_deadline_seconds`. -/
structure StreamingPullRequest where
  ack_ids : List String := []
  modify_deadline_ack_ids : List String := []
  modify_deadline_seconds : List Int := []
  deriving DecidableEq, Repr

/-- One observable collaborator call made by the code, in program order. -/
inductive Event where
  | leaserAdd (items : List LeaseRequest)
  | leaserRemove (items : List Removable)
  | send (req : StreamingPullRequest)
  | histogramAdd (t : Int)
  | activateOrderingKeys (keys : List String)
  | maybePauseConsumer
  | maybeResumeConsumer
  | warn (tag : String)
  | queuePut (r : RequestItem)
  deriving DecidableEq, Repr

/-- The constant `_ACK_IDS_BATCH_SIZE = 2500` of `dispatcher.py`. -/
def ACK_IDS_BATCH_SIZE : Nat := 2500

/-- The value `int(math.ceil(n / c))` arising in the chunk-count computation of
`Dispatcher.ack` and `Dispatcher.modify_ack_deadline` (exact ceiling
division on naturals). -/
def ceilDiv (n c : Nat) : Nat := (n + c - 1) / c

namespace Dispatcher

/-- The `for _ in range(total_chunks)` loop of `Dispatcher.ack`: each
iteration consumes up to `_ACK_IDS_BATCH_SIZE` ids from the shared
`ack_ids` iterator (`itertools.islice`) and sends one
`StreamingPullRequest(ack_ids=...)`. -/
def sendAckLoop (ackIds : List String) : Nat → List Event
  | 0 => []
  | k + 1 =>
      Event.send { ack_ids := ackIds.take ACK_IDS_BATCH_SIZE }
        :: sendAckLoop (ackIds.drop ACK_IDS_BATCH_SIZE) k

/-- The `for _ in range(total_chunks)` loop of
`Dispatcher.modify_ack_deadline`: each iteration consumes up to
`_ACK_IDS_BATCH_SIZE` entries from each of the two shared iterators
(`ack_ids` and `seconds`) and sends one request carrying both slices. -/
def sendModackLoop (ackIds : List String) (secs : List Int) : Nat → List Event
  | 0 => []
  | k + 1 =>
      Event.send { modify_deadline_ack_ids := ackIds.take ACK_IDS_BATCH_SIZE,
                   modify_deadline_seconds := secs.take ACK_IDS_BATCH_SIZE }
        :: sendModackLoop (ackIds.drop ACK_IDS_BATCH_SIZE)
             (secs.drop ACK_IDS_BATCH_SIZE) k

/-- The `for item in items` histogram loop of `Dispatcher.ack`: for every
item whose `time_to_ack` is not `None`, call
`self._manager.ack_histogram.add(time_to_ack)`. -/
def histogramLoop : List AckRequest → List Event
  | [] => []
  | item :: rest =>
      match item.time_to_ack with
      | some t => Event.histogramAdd t :: histogramLoop rest
      | none => histogramLoop rest

/-- The generator `(k.ordering_key for k in items if k.ordering_key)` of
`Dispatcher.drop`: the ordering keys of the items, in item order, with
falsy (empty) keys skipped. -/
def orderingKeysOf : List Removable → List String
  | [] => []
  | k :: rest =>
      if k.ordering_key = "" then orderingKeysOf rest
      else k.ordering_key :: orderingKeysOf rest

/-- Embeds `Dispatcher.drop(items)`: `leaser.remove(items)`, then
`manager.activate_ordering_keys(non-empty ordering keys)`, then
`manager.maybe_resume_consumer()`. -/
def drop (items : List Removable) : List Event :=
  [Event.leaserRemove items,
   Event.activateOrderingKeys (orderingKeysOf items),
   Event.maybeResumeConsumer]

/-- Embeds `Dispatcher.lease(items)`: `leaser.add(items)` then
`manager.maybe_pause_consumer()`. -/
def lease (items : List LeaseRequest) : List Event :=
  [Event.leaserAdd items, Event.maybePauseConsumer]

/-- Embeds `Dispatcher.ack(items)`: histogram loop, then the chunked sends over
`total_chunks = ceil(len(items) / _ACK_IDS_BATCH_SIZE)`, then
`self.drop(items)`. -/
def ack (items : List AckRequest) : List Event :=
  histogramLoop items
    ++ sendAckLoop (items.map AckRequest.ack_id)
         (ceilDiv items.length ACK_IDS_BATCH_SIZE)
    ++ drop (items.map Removable.ofAck)

/-- Embeds `Dispatcher.modify_ack_deadline(items)`: the chunked sends over
`total_chunks = ceil(len(items) / _ACK_IDS_BATCH_SIZE)`. -/
def modify_ack_deadline (items : List ModAckRequest) : List Event :=
  sendModackLoop (items.map ModAckRequest.ack_id)
    (items.map ModAckRequest.seconds)
    (ceilDiv items.length ACK_IDS_BATCH_SIZE)

/-- Embeds `Dispatcher.nack(items)`:
`self.modify_ack_deadline([ModAckRequest(ack_id=item.ack_id, seconds=0) for item in items])`
then `self.drop([DropRequest(*item) for item in items])`. -/
def nack (items : List NackRequest) : List Event :=
  modify_ack_deadline (items.map fun item => { ack_id := item.ack_id, seconds := 0 })
    ++ drop (items.map fun item =>
        Removable.ofDrop { ack_id := item.ack_id, byte_size := item.byte_size,
                           ordering_key := item.ordering_key })

/-- The five buckets (plus the warned-about unknown tags) accumulated by
`dispatch_callback`'s classification loop. -/
structure Partition where
  lease_requests : List LeaseRequest
  modack_requests : List ModAckRequest
  ack_requests : List AckRequest
  nack_requests : List NackRequest
  drop_requests : List DropRequest
  warns : List String
  deriving DecidableEq, Repr

/-- The `for item in items` classification loop of `dispatch_callback`:
each item is appended to the bucket of its variant, unknown items are
warned about. -/
def classifyLoop (p : Partition) : List RequestItem → Partition
  | [] => p
  | item :: rest =>
      let p' :=
        match item with
        | .lease r => { p with lease_requests := p.lease_requests ++ [r] }
        | .modack r => { p with modack_requests := p.modack_requests ++ [r] }
        | .ack r => { p with ack_requests := p.ack_requests ++ [r] }
        | .nack r => { p with nack_requests := p.nack_requests ++ [r] }
        | .drop r => { p with drop_requests := p.drop_requests ++ [r] }
        | .unknown tag => { p with warns := p.warns ++ [tag] }
      classifyLoop p' rest

/-- Classification starting from empty buckets, as `dispatch_callback` does. -/
def classify (items : List RequestItem) : Partition :=
  classifyLoop ⟨[], [], [], [], [], []⟩ items

/-- Embeds `Dispatcher.dispatch_callback(items)`: classify, then run each
per-kind handler guarded by its bucket's truthiness, in the fixed source
order lease, modify-ack-deadline, ack, nack, drop. -/
def dispatch_callback (items : List RequestItem) : List Event :=
  let p := classify items
  p.warns.map Event.warn
    ++ (if p.lease_requests.isEmpty then [] else lease p.lease_requests)
    ++ (if p.modack_requests.isEmpty then [] else modify_ack_deadline p.modack_requests)
    ++ (if p.ack_requests.isEmpty then [] else ack p.ack_requests)
    ++ (if p.nack_requests.isEmpty then [] else nack p.nack_requests)
    ++ (if p.drop_requests.isEmpty then []
        else drop (p.drop_requests.map Removable.ofDrop))

/-- The dispatcher's lifecycle state: `self._thread`, `None` when idle.
The worker thread is identified by an abstract id. -/
structure State where
  thread : Option Nat
  deriving DecidableEq, Repr

/-- Outcome of `Dispatcher.start`: either it returns normally or it raises
`ValueError("Dispatcher is already running.")`. -/
inductive StartResult where
  | ok
  | invalidState
  deriving DecidableEq, Repr

/-- Embeds `Dispatcher.start(self)`: under the operational lock, raise if
`self._thread is not None`, otherwise create and start a worker thread
(bound to `dispatch_callback`) and store its handle. `newThread` stands
for the freshly spawned thread's identity. On the error path the state is
returned unchanged. -/
def start (s : State) (newThread : Nat) : StartResult × State :=
  match s.thread with
  | some _ => (.invalidState, s)
  | none => (.ok, { thread := some newThread })

/-- The externally visible actions of `Dispatcher.stop`. -/
inductive StopEffect where
  | putStopPill
  | joinThread (t : Nat)
  deriving DecidableEq, Repr

/-- Embeds `Dispatcher.stop(self)`: under the operational lock, if a thread is
running enqueue the poison pill (`helper_threads.STOP`) and join it; in
either case clear `self._thread`. -/
def stop (s : State) : State × List StopEffect :=
  match s.thread with
  | some t => ({ thread := none }, [.putStopPill, .joinThread t])
  | none => ({ thread := none }, [])

end Dispatcher

/-- The `Message` handle of `message.py`, restricted to the attributes its
`ack` / `nack` / `modify_ack_deadline` / `drop` methods read:
`self._ack_id`, `self.size` (the serialized byte size), `self.ordering_key`
and `self._received_timestamp` (the `time.time()` value captured at
construction, as an exact rational). -/
structure Message where
  ack_id : String
  size : Nat
  ordering_key : String
  received_timestamp : ℚ
  deriving DecidableEq

namespace Message

/-- Embeds `Message.ack(self)`: compute
`time_to_ack = math.ceil(time.time() - self._received_timestamp)` and put
one `AckRequest(ack_id, byte_size, time_to_ack, ordering_key)` on the
request queue. `now` stands for the `time.time()` call. Returns the
(unchanged) handle and the events performed. -/
def ack (m : Message) (now : ℚ) : Message × List Event :=
  (m, [Event.queuePut (.ack
    { ack_id := m.ack_id
      byte_size := m.size
      time_to_ack := some ⌈now - m.received_timestamp⌉
      ordering_key := m.ordering_key })])

/-- Embeds `Message.drop(self)`: put one
`DropRequest(ack_id, byte_size, ordering_key)` on the request queue. -/
def drop (m : Message) : Message × List Event :=
  (m, [Event.queuePut (.drop
    { ack_id := m.ack_id
      byte_size := m.size
      ordering_key := m.ordering_key })])

/-- Embeds `Message.modify_ack_deadline(self, seconds)`: put one
`ModAckRequest(ack_id, seconds)` on the request queue. -/
def modify_ack_deadline (m : Message) (seconds : Int) : Message × List Event :=
  (m, [Event.queuePut (.modack { ack_id := m.ack_id, seconds := seconds })])

/-- Embeds `Message.nack(self)`: put one
`NackRequest(ack_id, byte_size, ordering_key)` on the request queue. -/
def nack (m : Message) : Message × List Event :=
  (m, [Event.queuePut (.nack
    { ack_id := m.ack_id
      byte_size := m.size
      ordering_key := m.ordering_key })])

/-- One invocation of a `Message` handle operation (with its external
inputs: the clock reading for `ack`, the caller's `seconds` for
`modify_ack_deadline`). -/
inductive OpCall where
  | ack (now : ℚ)
  | nack
  | modifyAckDeadline (seconds : Int)
  | drop
  deriving DecidableEq

/-- Run one handle operation. -/
def applyOp (m : Message) : OpCall → Message × List Event
  | .ack now => m.ack now
  | .nack => m.nack
  | .modifyAckDeadline s => m.modify_ack_deadline s
  | .drop => m.drop

/-- Run a sequence of handle operations on a message, threading the handle
state and concatenating the events each operation performs. -/
def runOps (m : Message) : List OpCall → Message × List Event
  | [] => (m, [])
  | op :: rest =>
      let step := applyOp m op
      let tail := runOps step.1 rest
      (tail.1, step.2 ++ tail.2)

end Message

/-! ### Observation helpers

Selectors used to state the classification, chunking and ordering
properties of the dispatcher. -/

/-- The item viewed as a `LeaseRequest`, when it is one. -/
def RequestItem.asLease : RequestItem → Option LeaseRequest
  | .lease r => some r
  | _ => none

/-- The item viewed as a `ModAckRequest`, when it is one. -/
def RequestItem.asModack : RequestItem → Option ModAckRequest
  | .modack r => some r
  | _ => none

/-- The item viewed as an `AckRequest`, when it is one. -/
def RequestItem.asAck : RequestItem → Option AckRequest
  | .ack r => some r
  | _ => none

/-- The item viewed as a `NackRequest`, when it is one. -/
def RequestItem.asNack : RequestItem → Option NackRequest
  | .nack r => some r
  | _ => none

/-- The item viewed as a `DropRequest`, when it is one. -/
def RequestItem.asDrop : RequestItem → Option DropRequest
  | .drop r => some r
  | _ => none

/-- The tag of an unrecognized item, when the item is unrecognized. -/
def RequestItem.asUnknown : RequestItem → Option String
  | .unknown t => some t
  | _ => none

/-- Whether the item is one of the five known variants. -/
def RequestItem.isKnown : RequestItem → Bool
  | .unknown _ => false
  | _ => true

/-- The request sent by a `manager.send` event, `none` for other events. -/
def Event.sendPayload : Event → Option StreamingPullRequest
  | .send r => some r
  | _ => none

/-- Whether the event is a `leaser.add` call. -/
def Event.isLeaserAdd : Event → Bool
  | .leaserAdd _ => true
  | _ => false

/-- Whether the event is a `leaser.remove` call. -/
def Event.isLeaserRemove : Event → Bool
  | .leaserRemove _ => true
  | _ => false

/-- The payload of a `leaser.remove` event, `none` for other events. -/
def Event.removePayload : Event → Option (List Removable)
  | .leaserRemove items => some items
  | _ => none

/-- The outbound protocol requests `Dispatcher.ack(items)` hands to
`manager.send`, in order. -/
def ackSends (items : List AckRequest) : List StreamingPullRequest :=
  (Dispatcher.ack items).filterMap Event.sendPayload

/-- The outbound protocol requests `Dispatcher.modify_ack_deadline(items)`
hands to `manager.send`, in order. -/
def modackSends (items : List ModAckRequest) : List StreamingPullRequest :=
  (Dispatcher.modify_ack_deadline items).filterMap Event.sendPayload

/-- The reference behaviour the specification prescribes for `nack`:
`modify_ack_deadline` with one `ModAckRequest(ack_id, 0)` per item, in
input order, followed by `drop` on drop-requests carrying each item's
`ack_id`, `byte_size` and `ordering_key`. -/
def nackSpecTrace (items : List NackRequest) : List Event :=
  Dispatcher.modify_ack_deadline
      (items.map fun item => { ack_id := item.ack_id, seconds := 0 })
    ++ Dispatcher.drop (items.map fun item =>
        Removable.ofDrop { ack_id := item.ack_id, byte_size := item.byte_size,
                           ordering_key := item.ordering_key })

/-- The chunks a shared iterator of `xs` is cut into by `k` successive
`itertools.islice(-, c)` slices: `k` chunks of up to `c` elements each. -/
def chunks (c : Nat) (xs : List α) : Nat → List (List α)
  | 0 => []
  | k + 1 => xs.take c :: chunks c (xs.drop c) k

/-- The lengths of the successive chunks of a list of length `n`. -/
def chunkSizes (c : Nat) : Nat → Nat → List Nat
  | 0, _ => []
  | k + 1, n => min c n :: chunkSizes c k (n - c)

/-! ### Arithmetic and chunking lemmas -/

theorem ceilDiv_eq_zero {n c : ℕ} (hc : 0 < c) (h : ceilDiv n c = 0) : n = 0 := by
  by_contra h0
  have hle : c ≤ n + c - 1 := by omega
  have h2 : c / c ≤ (n + c - 1) / c := Nat.div_le_div_right hle
  rw [Nat.div_self hc] at h2
  unfold ceilDiv at h
  omega

theorem ceilDiv_succ {n c k : ℕ} (hc : 0 < c) (h : ceilDiv n c = k + 1) :
    ceilDiv (n - c) c = k := by
  have hn : 0 < n := by
    rcases Nat.eq_zero_or_pos n with h0 | h0
    · exfalso
      subst h0
      have hz : ceilDiv 0 c = 0 := Nat.div_eq_of_lt (by omega)
      omega
    · exact h0
  unfold ceilDiv at h ⊢
  rcases le_or_lt n c with hle | hlt
  · have h1 : (n + c - 1) / c = 1 := Nat.div_eq_of_lt_le (by omega) (by omega)
    have hk : k = 0 := by omega
    have hnc : n - c = 0 := by omega
    rw [hnc, hk]
    exact Nat.div_eq_of_lt (by omega)
  · have e1 : n - c + c - 1 = n - 1 := by omega
    have e2 : n + c - 1 = n - 1 + c := by omega
    rw [e1]
    rw [e2, Nat.add_div_right _ hc] at h
    omega

theorem chunks_length (c : ℕ) (xs : List α) (k : ℕ) :
    (chunks c xs k).length = k := by
  induction k generalizing xs with
  | zero => rfl
  | succ k ih => simp [chunks, ih]

theorem chunks_join {c : ℕ} (hc : 0 < c) :
    ∀ (k : ℕ) (xs : List α), ceilDiv xs.length c = k →
      (chunks c xs k).flatten = xs := by
  intro k
  induction k with
  | zero =>
      intro xs h
      have := ceilDiv_eq_zero hc h
      simp [List.length_eq_zero] at this
      simp [this, chunks]
  | succ k ih =>
      intro xs h
      have hdrop : ceilDiv (xs.drop c).length c = k := by
        rw [List.length_drop]
        exact ceilDiv_succ hc h
      simp [chunks, ih (xs.drop c) hdrop]

theorem chunks_le {c : ℕ} :
    ∀ (k : ℕ) (xs : List α), ∀ ys ∈ chunks c xs k, ys.length ≤ c := by
  intro k
  induction k with
  | zero => intro xs ys h; simp [chunks] at h
  | succ k ih =>
      intro xs ys h
      simp only [chunks, List.mem_cons] at h
      rcases h with h | h
      · subst h
        simp [List.length_take]
      · exact ih (xs.drop c) ys h

theorem chunks_map_length (c : ℕ) :
    ∀ (k : ℕ) (xs : List α),
      (chunks c xs k).map List.length = chunkSizes c k xs.length := by
  intro k
  induction k with
  | zero => intro xs; rfl
  | succ k ih =>
      intro xs
      simp [chunks, chunkSizes, ih (xs.drop c), List.length_take, List.length_drop]

/-! ### Characterizations of the dispatcher's loops -/

namespace Dispatcher

theorem sendAckLoop_eq :
    ∀ (k : ℕ) (ids : List String),
      sendAckLoop ids k =
        (chunks ACK_IDS_BATCH_SIZE ids k).map
          (fun cids => Event.send { ack_ids := cids }) := by
  intro k
  induction k with
  | zero => intro ids; rfl
  | succ k ih => intro ids; simp [sendAckLoop, chunks, ih]

theorem histogramLoop_eq (items : List AckRequest) :
    histogramLoop items =
      (items.filterMap AckRequest.time_to_ack).map Event.histogramAdd := by
  induction items with
  | nil => rfl
  | cons item rest ih =>
      cases h : item.time_to_ack <;>
        simp [histogramLoop, List.filterMap_cons, h, ih]

theorem orderingKeysOf_eq (items : List Removable) :
    orderingKeysOf items =
      items.filterMap fun k =>
        if k.ordering_key = "" then none else some k.ordering_key := by
  induction items with
  | nil => rfl
  | cons k rest ih =>
      by_cases h : k.ordering_key = "" <;>
        simp [orderingKeysOf, List.filterMap_cons, h, ih]

theorem ackLoop_payload :
    ∀ (k : ℕ) (ids : List String),
      ((sendAckLoop ids k).filterMap Event.sendPayload).map
          StreamingPullRequest.ack_ids =
        chunks ACK_IDS_BATCH_SIZE ids k := by
  intro k
  induction k with
  | zero => intro ids; rfl
  | succ k ih =>
      intro ids
      simp [sendAckLoop, chunks, List.filterMap_cons, Event.sendPayload, ih]

theorem modackLoop_payload_ids :
    ∀ (k : ℕ) (ids : List String) (secs : List Int),
      ((sendModackLoop ids secs k).filterMap Event.sendPayload).map
          StreamingPullRequest.modify_deadline_ack_ids =
        chunks ACK_IDS_BATCH_SIZE ids k := by
  intro k
  induction k with
  | zero => intro ids secs; rfl
  | succ k ih =>
      intro ids secs
      simp [sendModackLoop, chunks, List.filterMap_cons, Event.sendPayload, ih]

theorem modackLoop_payload_secs :
    ∀ (k : ℕ) (ids : List String) (secs : List Int),
      ((sendModackLoop ids secs k).filterMap Event.sendPayload).map
          StreamingPullRequest.modify_deadline_seconds =
        chunks ACK_IDS_BATCH_SIZE secs k := by
  intro k
  induction k with
  | zero => intro ids secs; rfl
  | succ k ih =>
      intro ids secs
      simp [sendModackLoop, chunks, List.filterMap_cons, Event.sendPayload, ih]

theorem modackLoop_payload_shape :
    ∀ (k : ℕ) (ids : List String) (secs : List Int),
      ids.length = secs.length →
      ∀ r ∈ (sendModackLoop ids secs k).filterMap Event.sendPayload,
        r.ack_ids = [] ∧
        r.modify_deadline_ack_ids.length = r.modify_deadline_seconds.length := by
  intro k
  induction k with
  | zero => intro ids secs _ r h; simp [sendModackLoop] at h
  | succ k ih =>
      intro ids secs hlen r h
      simp only [sendModackLoop, List.filterMap_cons, Event.sendPayload,
        List.mem_cons] at h
      rcases h with h | h
      · subst h
        refine ⟨rfl, ?_⟩
        simp [List.length_take, hlen]
      · exact ih (ids.drop ACK_IDS_BATCH_SIZE) (secs.drop ACK_IDS_BATCH_SIZE)
          (by simp [List.length_drop, hlen]) r h

theorem modackLoop_removePayload :
    ∀ (k : ℕ) (ids : List String) (secs : List Int),
      (sendModackLoop ids secs k).filterMap Event.removePayload = [] := by
  intro k
  induction k with
  | zero => intro ids secs; rfl
  | succ k ih =>
      intro ids secs
      simp [sendModackLoop, List.filterMap_cons, Event.removePayload, ih]

theorem orderingKeysOf_ne (items : List Removable) :
    ∀ key ∈ orderingKeysOf items, key ≠ "" := by
  induction items with
  | nil => intro key h; simp [orderingKeysOf] at h
  | cons k rest ih =>
      intro key h
      by_cases hk : k.ordering_key = ""
      · rw [orderingKeysOf, if_pos hk] at h
        exact ih key h
      · rw [orderingKeysOf, if_neg hk] at h
        rcases List.mem_cons.1 h with rfl | h
        · exact hk
        · exact ih key h

theorem histogramLoop_payload (items : List AckRequest) :
    (histogramLoop items).filterMap Event.sendPayload = [] := by
  rw [histogramLoop_eq]
  induction (items.filterMap AckRequest.time_to_ack) with
  | nil => rfl
  | cons t rest ih => simp [List.filterMap_cons, Event.sendPayload, ih]

theorem drop_payload (items : List Removable) :
    (drop items).filterMap Event.sendPayload = [] := by
  simp [drop, List.filterMap_cons, Event.sendPayload]

theorem ack_payload (items : List AckRequest) :
    (ack items).filterMap Event.sendPayload =
      (sendAckLoop (items.map AckRequest.ack_id)
        (ceilDiv items.length ACK_IDS_BATCH_SIZE)).filterMap Event.sendPayload := by
  simp [ack, List.filterMap_append, histogramLoop_payload, drop_payload]

theorem classifyLoop_eq :
    ∀ (items : List RequestItem) (p : Partition),
      classifyLoop p items =
        { lease_requests := p.lease_requests ++ items.filterMap RequestItem.asLease
          modack_requests := p.modack_requests ++ items.filterMap RequestItem.asModack
          ack_requests := p.ack_requests ++ items.filterMap RequestItem.asAck
          nack_requests := p.nack_requests ++ items.filterMap RequestItem.asNack
          drop_requests := p.drop_requests ++ items.filterMap RequestItem.asDrop
          warns := p.warns ++ items.filterMap RequestItem.asUnknown } := by
  intro items
  induction items with
  | nil => intro p; simp [classifyLoop]
  | cons item rest ih =>
      intro p
      cases item <;>
        simp [classifyLoop, ih, RequestItem.asLease, RequestItem.asModack,
          RequestItem.asAck, RequestItem.asNack, RequestItem.asDrop,
          RequestItem.asUnknown, List.filterMap_cons, List.append_assoc]

theorem classify_eq (items : List RequestItem) :
    classify items =
      { lease_requests := items.filterMap RequestItem.asLease
        modack_requests := items.filterMap RequestItem.asModack
        ack_requests := items.filterMap RequestItem.asAck
        nack_requests := items.filterMap RequestItem.asNack
        drop_requests := items.filterMap RequestItem.asDrop
        warns := items.filterMap RequestItem.asUnknown } := by
  simp [classify, classifyLoop_eq]

/-! ### Which leaser calls each handler's trace can contain -/

theorem sendAckLoop_shape {k : ℕ} {ids : List String} :
    ∀ e ∈ sendAckLoop ids k, ∃ r, e = Event.send r := by
  rw [sendAckLoop_eq]
  intro e he
  rcases List.mem_map.1 he with ⟨c, _, rfl⟩
  exact ⟨_, rfl⟩

theorem sendModackLoop_shape :
    ∀ (k : ℕ) (ids : List String) (secs : List Int),
      ∀ e ∈ sendModackLoop ids secs k, ∃ r, e = Event.send r := by
  intro k
  induction k with
  | zero => intro ids secs e he; simp [sendModackLoop] at he
  | succ k ih =>
      intro ids secs e he
      simp only [sendModackLoop, List.mem_cons] at he
      rcases he with rfl | he
      · exact ⟨_, rfl⟩
      · exact ih _ _ e he

theorem histogramLoop_shape {items : List AckRequest} :
    ∀ e ∈ histogramLoop items, ∃ t, e = Event.histogramAdd t := by
  rw [histogramLoop_eq]
  intro e he
  rcases List.mem_map.1 he with ⟨t, _, rfl⟩
  exact ⟨_, rfl⟩

theorem mem_drop_iff {xs : List Removable} {e : Event} :
    e ∈ drop xs ↔
      e = Event.leaserRemove xs ∨
      e = Event.activateOrderingKeys (orderingKeysOf xs) ∨
      e = Event.maybeResumeConsumer := by
  simp [drop]

theorem add_not_mem_warns (ws : List String) (la : List LeaseRequest) :
    Event.leaserAdd la ∉ ws.map Event.warn := by
  intro h
  rcases List.mem_map.1 h with ⟨t, _, ht⟩
  simp at ht

theorem remove_not_mem_warns (ws : List String) (ra : List Removable) :
    Event.leaserRemove ra ∉ ws.map Event.warn := by
  intro h
  rcases List.mem_map.1 h with ⟨t, _, ht⟩
  simp at ht

theorem remove_not_mem_lease (items : List LeaseRequest) (ra : List Removable) :
    Event.leaserRemove ra ∉ lease items := by
  intro h
  simp [lease] at h

theorem lease_add_eq {items : List LeaseRequest} {la : List LeaseRequest}
    (h : Event.leaserAdd la ∈ lease items) : la = items := by
  simp [lease] at h
  exact h

theorem add_not_mem_modack (items : List ModAckRequest) (la : List LeaseRequest) :
    Event.leaserAdd la ∉ modify_ack_deadline items := by
  intro h
  rcases sendModackLoop_shape _ _ _ _ h with ⟨r, hr⟩
  simp at hr

theorem remove_not_mem_modack (items : List ModAckRequest) (ra : List Removable) :
    Event.leaserRemove ra ∉ modify_ack_deadline items := by
  intro h
  rcases sendModackLoop_shape _ _ _ _ h with ⟨r, hr⟩
  simp at hr

theorem add_not_mem_drop (xs : List Removable) (la : List LeaseRequest) :
    Event.leaserAdd la ∉ drop xs := by
  intro h
  rcases mem_drop_iff.1 h with h | h | h <;> simp at h

theorem drop_remove_eq {xs ra : List Removable}
    (h : Event.leaserRemove ra ∈ drop xs) : ra = xs := by
  rcases mem_drop_iff.1 h with h | h | h <;> simp at h
  exact h

theorem add_not_mem_ack (items : List AckRequest) (la : List LeaseRequest) :
    Event.leaserAdd la ∉ ack items := by
  intro h
  simp only [ack, List.mem_append] at h
  rcases h with (h | h) | h
  · rcases histogramLoop_shape _ h with ⟨t, ht⟩; simp at ht
  · rcases sendAckLoop_shape _ h with ⟨r, hr⟩; simp at hr
  · exact add_not_mem_drop _ _ h

theorem ack_remove_eq {items : List AckRequest} {ra : List Removable}
    (h : Event.leaserRemove ra ∈ ack items) :
    ra = items.map Removable.ofAck := by
  simp only [ack, List.mem_append] at h
  rcases h with (h | h) | h
  · rcases histogramLoop_shape _ h with ⟨t, ht⟩; simp at ht
  · rcases sendAckLoop_shape _ h with ⟨r, hr⟩; simp at hr
  · exact drop_remove_eq h

theorem add_not_mem_nack (items : List NackRequest) (la : List LeaseRequest) :
    Event.leaserAdd la ∉ nack items := by
  intro h
  simp only [nack, List.mem_append] at h
  rcases h with h | h
  · exact add_not_mem_modack _ _ h
  · exact add_not_mem_drop _ _ h

theorem nack_remove_eq {items : List NackRequest} {ra : List Removable}
    (h : Event.leaserRemove ra ∈ nack items) :
    ra = items.map fun item =>
      Removable.ofDrop { ack_id := item.ack_id, byte_size := item.byte_size,
                         ordering_key := item.ordering_key } := by
  simp only [nack, List.mem_append] at h
  rcases h with h | h
  · exact absurd h (remove_not_mem_modack _ _)
  · exact drop_remove_eq h

end Dispatcher

/-- Membership in a truthiness-guarded handler trace. -/
theorem mem_of_mem_ite_nil {c : Prop} [Decidable c] {l : List α} {x : α}
    (h : x ∈ if c then ([] : List α) else l) : x ∈ l := by
  split at h
  · simp at h
  · exact h

/-- Membership in a truthiness-guarded handler trace also refutes the
guard. -/
theorem mem_ite_nil_elim {c : Prop} [Decidable c] {l : List α} {x : α}
    (h : x ∈ if c then ([] : List α) else l) : ¬c ∧ x ∈ l := by
  split at h
  · simp at h
  · rename_i hc
    exact ⟨hc, h⟩

/-- If a trace is `head ++ tail`, no `leaser.remove` occurs in `head` and no
`leaser.add` occurs in `tail`, then any `leaser.add` position precedes any
`leaser.remove` position. -/
theorem add_before_remove_aux {head tail : List Event} {i j : ℕ}
    {la : List LeaseRequest} {ra : List Removable}
    (hAdd : Event.leaserAdd la ∉ tail)
    (hRem : Event.leaserRemove ra ∉ head)
    (hi : (head ++ tail)[i]? = some (Event.leaserAdd la))
    (hj : (head ++ tail)[j]? = some (Event.leaserRemove ra)) : i < j := by
  have hi' : i < head.length := by
    by_contra hge
    push_neg at hge
    rw [List.getElem?_append_right hge] at hi
    exact hAdd (List.getElem?_mem hi)
  have hj' : head.length ≤ j := by
    by_contra hlt
    push_neg at hlt
    rw [List.getElem?_append_left hlt] at hj
    exact hRem (List.getElem?_mem hj)
  omega

/-- Restricting a batch to its recognized items does not change the value
of any selector that is `none` on unrecognized items. -/
theorem filterMap_filter_isKnown {β : Type} (f : RequestItem → Option β)
    (hf : ∀ x : RequestItem, x.isKnown = false → f x = none) :
    ∀ items : List RequestItem,
      (items.filter RequestItem.isKnown).filterMap f = items.filterMap f := by
  intro items
  induction items with
  | nil => rfl
  | cons x rest ih =>
      by_cases hx : x.isKnown = true
      · simp [List.filter_cons, hx, List.filterMap_cons, ih]
      · have hfx : f x = none := hf x (by simpa using hx)
        simp [List.filter_cons, hx, List.filterMap_cons, hfx, ih]

/-! ### Claim theorems -/

/-- C1: `dispatch_callback` partitions its batch into five buckets by
variant, each bucket being the order-preserving restriction (`filterMap`)
of the input to that variant; it then processes the buckets in the fixed
sequence lease, modify-ack-deadline, ack, nack, drop; consequently, in the
resulting trace every `leaser.add` call occurs at an earlier position than
every `leaser.remove` call — in particular for a batch holding a
`LeaseRequest` and an `AckRequest`/`NackRequest`/`DropRequest` for the
same `ack_id`. -/
theorem dispatch_callback_partitions_and_orders (items : List RequestItem)
    (i j : ℕ) (la : List LeaseRequest) (ra : List Removable)
    (hi : (Dispatcher.dispatch_callback items)[i]? = some (Event.leaserAdd la))
    (hj : (Dispatcher.dispatch_callback items)[j]? = some (Event.leaserRemove ra)) :
    Dispatcher.classify items =
      { lease_requests := items.filterMap RequestItem.asLease
        modack_requests := items.filterMap RequestItem.asModack
        ack_requests := items.filterMap RequestItem.asAck
        nack_requests := items.filterMap RequestItem.asNack
        drop_requests := items.filterMap RequestItem.asDrop
        warns := items.filterMap RequestItem.asUnknown } ∧
    Dispatcher.dispatch_callback items =
      (items.filterMap RequestItem.asUnknown).map Event.warn
        ++ (if (items.filterMap RequestItem.asLease).isEmpty then []
            else Dispatcher.lease (items.filterMap RequestItem.asLease))
        ++ (if (items.filterMap RequestItem.asModack).isEmpty then []
            else Dispatcher.modify_ack_deadline (items.filterMap RequestItem.asModack))
        ++ (if (items.filterMap RequestItem.asAck).isEmpty then []
            else Dispatcher.ack (items.filterMap RequestItem.asAck))
        ++ (if (items.filterMap RequestItem.asNack).isEmpty then []
            else Dispatcher.nack (items.filterMap RequestItem.asNack))
        ++ (if (items.filterMap RequestItem.asDrop).isEmpty then []
            else Dispatcher.drop
              ((items.filterMap RequestItem.asDrop).map Removable.ofDrop)) ∧
    i < j := by
  refine ⟨Dispatcher.classify_eq items, ?_, ?_⟩
  · simp [Dispatcher.dispatch_callback, Dispatcher.classify_eq]
  · have ht : Dispatcher.dispatch_callback items =
        ((Dispatcher.classify items).warns.map Event.warn ++
          (if (Dispatcher.classify items).lease_requests.isEmpty then []
           else Dispatcher.lease (Dispatcher.classify items).lease_requests)) ++
        ((if (Dispatcher.classify items).modack_requests.isEmpty then []
          else Dispatcher.modify_ack_deadline
            (Dispatcher.classify items).modack_requests) ++
         ((if (Dispatcher.classify items).ack_requests.isEmpty then []
           else Dispatcher.ack (Dispatcher.classify items).ack_requests) ++
          ((if (Dispatcher.classify items).nack_requests.isEmpty then []
            else Dispatcher.nack (Dispatcher.classify items).nack_requests) ++
           (if (Dispatcher.classify items).drop_requests.isEmpty then []
            else Dispatcher.drop
              ((Dispatcher.classify items).drop_requests.map Removable.ofDrop))))) := by
      simp [Dispatcher.dispatch_callback, List.append_assoc]
    rw [ht] at hi hj
    refine add_before_remove_aux ?_ ?_ hi hj
    · intro hmem
      simp only [List.mem_append] at hmem
      rcases hmem with h | h | h | h
      · exact Dispatcher.add_not_mem_modack _ _ (mem_of_mem_ite_nil h)
      · exact Dispatcher.add_not_mem_ack _ _ (mem_of_mem_ite_nil h)
      · exact Dispatcher.add_not_mem_nack _ _ (mem_of_mem_ite_nil h)
      · exact Dispatcher.add_not_mem_drop _ _ (mem_of_mem_ite_nil h)
    · intro hmem
      rcases List.mem_append.1 hmem with h | h
      · exact Dispatcher.remove_not_mem_warns _ _ h
      · exact Dispatcher.remove_not_mem_lease _ _ (mem_of_mem_ite_nil h)

/-- Witness for C1: the batch `[LeaseRequest "a", AckRequest "a"]` has its
`leaser.add` at trace position 0 and its `leaser.remove` at position 4. -/
theorem dispatch_callback_partitions_and_orders_witness : (0 : ℕ) < 4 :=
  (dispatch_callback_partitions_and_orders
    [RequestItem.lease { ack_id := "a", byte_size := 10, ordering_key := "" },
     RequestItem.ack { ack_id := "a", byte_size := 10, time_to_ack := some 3,
                       ordering_key := "" }]
    0 4
    [{ ack_id := "a", byte_size := 10, ordering_key := "" }]
    [Removable.ofAck { ack_id := "a", byte_size := 10, time_to_ack := some 3,
                       ordering_key := "" }]
    (by rfl) (by rfl)).2.2

/-- C2: for `N` input items and the fixed cap `C = 2500`, both
`Dispatcher.ack` and `Dispatcher.modify_ack_deadline` hand exactly
`ceil(N/C)` requests to `manager.send`; each request carries at most `C`
ack ids (for modify-ack-deadline, positionally paired with an equal number
of seconds); concatenating the chunks reproduces the input ids (and
seconds) in order, so every item lands in exactly one chunk; 5001 ack
items yield exactly the chunk sizes 2500, 2500, 1. -/
theorem ack_modack_chunking (acks : List AckRequest) (modacks : List ModAckRequest) :
    (ackSends acks).length = ceilDiv acks.length ACK_IDS_BATCH_SIZE ∧
    (∀ r ∈ ackSends acks, r.ack_ids.length ≤ ACK_IDS_BATCH_SIZE) ∧
    ((ackSends acks).map StreamingPullRequest.ack_ids).flatten =
      acks.map AckRequest.ack_id ∧
    (modackSends modacks).length = ceilDiv modacks.length ACK_IDS_BATCH_SIZE ∧
    (∀ r ∈ modackSends modacks,
        r.modify_deadline_ack_ids.length ≤ ACK_IDS_BATCH_SIZE ∧
        r.modify_deadline_ack_ids.length = r.modify_deadline_seconds.length) ∧
    ((modackSends modacks).map StreamingPullRequest.modify_deadline_ack_ids).flatten =
      modacks.map ModAckRequest.ack_id ∧
    ((modackSends modacks).map StreamingPullRequest.modify_deadline_seconds).flatten =
      modacks.map ModAckRequest.seconds ∧
    (acks.length = 5001 →
      (ackSends acks).map (fun r => r.ack_ids.length) = [2500, 2500, 1]) := by
  have hC : 0 < ACK_IDS_BATCH_SIZE := by decide
  have hmap : (ackSends acks).map StreamingPullRequest.ack_ids =
      chunks ACK_IDS_BATCH_SIZE (acks.map AckRequest.ack_id)
        (ceilDiv acks.length ACK_IDS_BATCH_SIZE) := by
    rw [ackSends, Dispatcher.ack_payload, Dispatcher.ackLoop_payload]
  have hmodIds : (modackSends modacks).map StreamingPullRequest.modify_deadline_ack_ids =
      chunks ACK_IDS_BATCH_SIZE (modacks.map ModAckRequest.ack_id)
        (ceilDiv modacks.length ACK_IDS_BATCH_SIZE) := by
    rw [modackSends, Dispatcher.modify_ack_deadline, Dispatcher.modackLoop_payload_ids]
  have hmodSecs : (modackSends modacks).map StreamingPullRequest.modify_deadline_seconds =
      chunks ACK_IDS_BATCH_SIZE (modacks.map ModAckRequest.seconds)
        (ceilDiv modacks.length ACK_IDS_BATCH_SIZE) := by
    rw [modackSends, Dispatcher.modify_ack_deadline, Dispatcher.modackLoop_payload_secs]
  refine ⟨?_, ?_, ?_, ?_, ?_, ?_, ?_, ?_⟩
  · have := congrArg List.length hmap
    simpa [chunks_length] using this
  · intro r hr
    have : r.ack_ids ∈ (ackSends acks).map StreamingPullRequest.ack_ids :=
      List.mem_map_of_mem _ hr
    rw [hmap] at this
    exact chunks_le _ _ _ this
  · rw [hmap]
    exact chunks_join hC _ _ (by simp)
  · have := congrArg List.length hmodIds
    simpa [chunks_length] using this
  · intro r hr
    constructor
    · have : r.modify_deadline_ack_ids ∈
          (modackSends modacks).map StreamingPullRequest.modify_deadline_ack_ids :=
        List.mem_map_of_mem _ hr
      rw [hmodIds] at this
      exact chunks_le _ _ _ this
    · exact (Dispatcher.modackLoop_payload_shape _ _ _ (by simp) r hr).2
  · rw [hmodIds]
    exact chunks_join hC _ _ (by simp)
  · rw [hmodSecs]
    exact chunks_join hC _ _ (by simp)
  · intro h5001
    have : (ackSends acks).map (fun r => r.ack_ids.length) =
        ((ackSends acks).map StreamingPullRequest.ack_ids).map List.length := by
      rw [List.map_map]
      rfl
    rw [this, hmap, chunks_map_length, List.length_map, h5001]
    decide

/-- Witness for C2: a batch of 5001 ack items is sent as exactly three
requests of sizes 2500, 2500 and 1. -/
theorem ack_modack_chunking_witness :
    (ackSends (List.replicate 5001
        { ack_id := "a", byte_size := 1, time_to_ack := none, ordering_key := "" })).map
      (fun r => r.ack_ids.length) = [2500, 2500, 1] :=
  (ack_modack_chunking
    (List.replicate 5001
      { ack_id := "a", byte_size := 1, time_to_ack := none, ordering_key := "" })
    []).2.2.2.2.2.2.2 (List.length_replicate 5001 _)

/-- C3: `Dispatcher.nack(items)` produces exactly the trace of
`modify_ack_deadline` on one `ModAckRequest(ack_id, 0)` per item, in input
order, followed by `drop` on drop-requests carrying each item's `ack_id`,
`byte_size` and `ordering_key` (the spec-side reference `nackSpecTrace`);
in particular its `manager.send` calls are exactly those of that
`modify_ack_deadline` call, and its single `leaser.remove` call carries the
drop-requests built from the items, in input order. -/
theorem nack_refines_modack_then_drop (items : List NackRequest) :
    Dispatcher.nack items = nackSpecTrace items ∧
    (Dispatcher.nack items).filterMap Event.sendPayload =
      (Dispatcher.modify_ack_deadline
        (items.map fun item => { ack_id := item.ack_id, seconds := 0 })).filterMap
        Event.sendPayload ∧
    (Dispatcher.nack items).filterMap Event.removePayload =
      [items.map fun item =>
        Removable.ofDrop { ack_id := item.ack_id, byte_size := item.byte_size,
                           ordering_key := item.ordering_key }] := by
  refine ⟨rfl, ?_, ?_⟩
  · rw [Dispatcher.nack, List.filterMap_append, Dispatcher.drop_payload,
      List.append_nil]
  · rw [Dispatcher.nack, List.filterMap_append, Dispatcher.modify_ack_deadline,
      Dispatcher.modackLoop_removePayload]
    simp [Dispatcher.drop, List.filterMap_cons, Event.removePayload]

/-- C4 counterexample: dropping two items that share the non-empty ordering
key `"k"` passes `["k", "k"]` — a list with a duplicate, not the distinct
set — to `manager.activate_ordering_keys`. -/
theorem drop_duplicate_keys_counterexample :
    Dispatcher.drop
      [Removable.ofDrop { ack_id := "a", byte_size := 1, ordering_key := "k" },
       Removable.ofDrop { ack_id := "b", byte_size := 1, ordering_key := "k" }] =
      [Event.leaserRemove
        [Removable.ofDrop { ack_id := "a", byte_size := 1, ordering_key := "k" },
         Removable.ofDrop { ack_id := "b", byte_size := 1, ordering_key := "k" }],
       Event.activateOrderingKeys ["k", "k"],
       Event.maybeResumeConsumer] ∧
    ¬ (["k", "k"] : List String).Nodup := by
  exact ⟨by decide, by decide⟩

/-- C4 (amended): `Dispatcher.drop` removes all items from the lease
tracker, then passes to `manager.activate_ordering_keys` the list of the
items' non-empty ordering keys in input order — duplicates are kept, empty
keys are skipped — and then calls `manager.maybe_resume_consumer`. -/
theorem drop_keys_amended (items : List Removable) (key : String)
    (hkey : key ∈ Dispatcher.orderingKeysOf items) :
    Dispatcher.drop items =
      [Event.leaserRemove items,
       Event.activateOrderingKeys
         (items.filterMap fun k =>
           if k.ordering_key = "" then none else some k.ordering_key),
       Event.maybeResumeConsumer] ∧
    key ≠ "" := by
  constructor
  · simp [Dispatcher.drop, Dispatcher.orderingKeysOf_eq]
  · exact Dispatcher.orderingKeysOf_ne items key hkey

/-- Witness for C4 (amended): dropping one item with ordering key `"k"`
activates exactly `["k"]`, and the listed key is non-empty. -/
theorem drop_keys_amended_witness :
    Dispatcher.drop [Removable.ofDrop { ack_id := "a", byte_size := 1,
                                        ordering_key := "k" }] =
      [Event.leaserRemove
        [Removable.ofDrop { ack_id := "a", byte_size := 1, ordering_key := "k" }],
       Event.activateOrderingKeys
         ([Removable.ofDrop { ack_id := "a", byte_size := 1,
                              ordering_key := "k" }].filterMap fun k =>
           if k.ordering_key = "" then none else some k.ordering_key),
       Event.maybeResumeConsumer] ∧
    "k" ≠ "" :=
  drop_keys_amended
    [Removable.ofDrop { ack_id := "a", byte_size := 1, ordering_key := "k" }]
    "k" (by decide)

/-- C5: `Dispatcher.ack` first records, for every item whose `time_to_ack`
is non-null, that value into the manager's ack histogram (one `add` call
per such item, in input order), then emits the chunked acknowledge
requests, and finally performs the drop handling — lease removal,
ordering-key reactivation, consumer-resume check — on the same items. -/
theorem ack_histogram_then_send_then_drop (items : List AckRequest) :
    Dispatcher.ack items =
      (items.filterMap AckRequest.time_to_ack).map Event.histogramAdd
        ++ (chunks ACK_IDS_BATCH_SIZE (items.map AckRequest.ack_id)
              (ceilDiv items.length ACK_IDS_BATCH_SIZE)).map
            (fun cids => Event.send { ack_ids := cids })
        ++ Dispatcher.drop (items.map Removable.ofAck) := by
  rw [Dispatcher.ack, Dispatcher.histogramLoop_eq, Dispatcher.sendAckLoop_eq]

/-- C6: `start` while a worker is running reports the invalid-state error
synchronously and leaves the state — hence the existing worker — unchanged;
`stop` when never started (or already stopped) performs no effect and
returns normally; `stop` is idempotent: a second `stop` after any `stop`
changes nothing and performs no effect. -/
theorem start_stop_lifecycle (s : Dispatcher.State) (t n : ℕ)
    (h : s.thread = some t) :
    Dispatcher.start s n = (Dispatcher.StartResult.invalidState, s) ∧
    Dispatcher.stop { thread := none } = ({ thread := none }, []) ∧
    (∀ s' : Dispatcher.State,
        Dispatcher.stop (Dispatcher.stop s').1 = ((Dispatcher.stop s').1, [])) := by
  refine ⟨?_, rfl, ?_⟩
  · cases s with
    | mk th =>
        cases th with
        | none => simp at h
        | some t' => rfl
  · intro s'
    cases s' with
    | mk th => cases th <;> rfl

/-- Witness for C6 at the running state with worker id 0. -/
theorem start_stop_lifecycle_witness :
    Dispatcher.start { thread := some 0 } 1 =
      (Dispatcher.StartResult.invalidState, { thread := some 0 }) ∧
    Dispatcher.stop { thread := none } = ({ thread := none }, []) ∧
    (∀ s' : Dispatcher.State,
        Dispatcher.stop (Dispatcher.stop s').1 = ((Dispatcher.stop s').1, [])) :=
  start_stop_lifecycle { thread := some 0 } 0 1 rfl

/-- C7: unrecognized items are excluded from every bucket and only produce
a warning — `dispatch_callback` on any batch equals the warnings for its
unrecognized items followed by `dispatch_callback` on the recognized items
alone (in particular no exception on their account, and all recognized
items are still fully processed); the recognized rest produces no warning;
a batch of one unknown item and one valid `DropRequest` still performs the
drop handling. -/
theorem dispatch_callback_unknown_items (items : List RequestItem) :
    Dispatcher.dispatch_callback items =
      (items.filterMap RequestItem.asUnknown).map Event.warn
        ++ Dispatcher.dispatch_callback (items.filter RequestItem.isKnown) ∧
    (items.filter RequestItem.isKnown).filterMap RequestItem.asUnknown = [] ∧
    Dispatcher.dispatch_callback
        [RequestItem.unknown "mystery",
         RequestItem.drop { ack_id := "d", byte_size := 5, ordering_key := "" }] =
      Event.warn "mystery"
        :: Dispatcher.drop
            [Removable.ofDrop { ack_id := "d", byte_size := 5,
                                ordering_key := "" }] := by
  have hwarn : (items.filter RequestItem.isKnown).filterMap RequestItem.asUnknown
      = [] := by
    rw [List.filterMap_eq_nil_iff]
    intro x hx
    have hk := (List.mem_filter.1 hx).2
    cases x <;> simp_all [RequestItem.isKnown, RequestItem.asUnknown]
  have hL := filterMap_filter_isKnown RequestItem.asLease
    (fun x => by cases x <;> simp [RequestItem.isKnown, RequestItem.asLease]) items
  have hM := filterMap_filter_isKnown RequestItem.asModack
    (fun x => by cases x <;> simp [RequestItem.isKnown, RequestItem.asModack]) items
  have hA := filterMap_filter_isKnown RequestItem.asAck
    (fun x => by cases x <;> simp [RequestItem.isKnown, RequestItem.asAck]) items
  have hN := filterMap_filter_isKnown RequestItem.asNack
    (fun x => by cases x <;> simp [RequestItem.isKnown, RequestItem.asNack]) items
  have hD := filterMap_filter_isKnown RequestItem.asDrop
    (fun x => by cases x <;> simp [RequestItem.isKnown, RequestItem.asDrop]) items
  refine ⟨?_, hwarn, by decide⟩
  simp only [Dispatcher.dispatch_callback, Dispatcher.classify_eq, hwarn, hL, hM,
    hA, hN, hD]
  simp

/-- C8: `Message.ack` called at time `now` on a handle received at
`received_timestamp` enqueues exactly one `AckRequest` carrying the
handle's `ack_id`, `size` and `ordering_key` and
`time_to_ack = ⌈now - received_timestamp⌉` in whole seconds; for any
positive elapsed time strictly below one second that ceiling is 1, so
sub-second latencies never record as zero. -/
theorem message_ack_time_to_ack (m : Message) (now : ℚ) :
    m.ack now =
      (m, [Event.queuePut (RequestItem.ack
        { ack_id := m.ack_id, byte_size := m.size,
          time_to_ack := some ⌈now - m.received_timestamp⌉,
          ordering_key := m.ordering_key })]) ∧
    (0 < now - m.received_timestamp → now - m.received_timestamp < 1 →
      ⌈now - m.received_timestamp⌉ = 1) := by
  refine ⟨rfl, fun h0 h1 => ?_⟩
  rw [Int.ceil_eq_iff]
  constructor
  · push_cast
    linarith
  · push_cast
    linarith

/-- Witness for C8: a handle received at time 0 and acked at time 1/2
enqueues one `AckRequest` whose `time_to_ack` is 1. -/
theorem message_ack_time_to_ack_witness :
    ({ ack_id := "a", size := 3, ordering_key := "",
       received_timestamp := 0 } : Message).ack (1 / 2) =
      (({ ack_id := "a", size := 3, ordering_key := "",
          received_timestamp := 0 } : Message),
       [Event.queuePut (RequestItem.ack
         { ack_id := "a", byte_size := 3,
           time_to_ack := some ⌈(1 / 2 : ℚ) - 0⌉, ordering_key := "" })]) ∧
    ⌈(1 / 2 : ℚ) - 0⌉ = 1 :=
  ⟨(message_ack_time_to_ack
      { ack_id := "a", size := 3, ordering_key := "", received_timestamp := 0 }
      (1 / 2)).1,
   (message_ack_time_to_ack
      { ack_id := "a", size := 3, ordering_key := "", received_timestamp := 0 }
      (1 / 2)).2 (by norm_num) (by norm_num)⟩

/-- C9: any sequence of handle operations leaves the handle itself
unchanged and has as its complete effect trace exactly one queue insertion
per operation, in call order — the corresponding request record carrying
the handle's `ack_id`, `size` and `ordering_key` (and the caller's
`seconds` for modify-ack-deadline) — never an error, never a direct call
to the transport (`manager.send`) or the lease tracker. -/
theorem message_ops_queue_only (m : Message) (ops : List Message.OpCall) :
    (Message.runOps m ops).1 = m ∧
    (Message.runOps m ops).2 = ops.map fun op =>
      Event.queuePut (match op with
        | .ack now => RequestItem.ack
            { ack_id := m.ack_id, byte_size := m.size,
              time_to_ack := some ⌈now - m.received_timestamp⌉,
              ordering_key := m.ordering_key }
        | .nack => RequestItem.nack
            { ack_id := m.ack_id, byte_size := m.size,
              ordering_key := m.ordering_key }
        | .modifyAckDeadline s => RequestItem.modack
            { ack_id := m.ack_id, seconds := s }
        | .drop => RequestItem.drop
            { ack_id := m.ack_id, byte_size := m.size,
              ordering_key := m.ordering_key }) := by
  induction ops with
  | nil => exact ⟨rfl, rfl⟩
  | cons op rest ih =>
      cases op <;>
        simp [Message.runOps, Message.applyOp, Message.ack, Message.nack,
          Message.modify_ack_deadline, Message.drop, ih.1, ih.2]

/-- C10: a batch with no recognized items (including the empty batch)
produces only warnings — no call to the leaser or the manager at all; and
for every batch whatsoever, a per-kind handler runs only on its non-empty
bucket, so the dispatcher never hands the leaser (add or remove) an empty
item collection. -/
theorem dispatch_callback_nonempty_handlers (items : List RequestItem)
    (hall : ∀ x ∈ items, x.isKnown = false) :
    Dispatcher.dispatch_callback items =
      (items.filterMap RequestItem.asUnknown).map Event.warn ∧
    (∀ e ∈ Dispatcher.dispatch_callback items, ∃ t, e = Event.warn t) ∧
    (∀ (other : List RequestItem) (la : List LeaseRequest),
        Event.leaserAdd la ∈ Dispatcher.dispatch_callback other → la ≠ []) ∧
    (∀ (other : List RequestItem) (ra : List Removable),
        Event.leaserRemove ra ∈ Dispatcher.dispatch_callback other → ra ≠ []) := by
  have hnil : ∀ {β : Type} (f : RequestItem → Option β),
      (∀ x : RequestItem, x.isKnown = false → f x = none) →
      items.filterMap f = [] := by
    intro β f hf
    rw [List.filterMap_eq_nil_iff]
    intro x hx
    exact hf x (hall x hx)
  have hwonly : Dispatcher.dispatch_callback items =
      (items.filterMap RequestItem.asUnknown).map Event.warn := by
    have hL := hnil RequestItem.asLease
      (fun x => by cases x <;> simp [RequestItem.isKnown, RequestItem.asLease])
    have hM := hnil RequestItem.asModack
      (fun x => by cases x <;> simp [RequestItem.isKnown, RequestItem.asModack])
    have hA := hnil RequestItem.asAck
      (fun x => by cases x <;> simp [RequestItem.isKnown, RequestItem.asAck])
    have hN := hnil RequestItem.asNack
      (fun x => by cases x <;> simp [RequestItem.isKnown, RequestItem.asNack])
    have hD := hnil RequestItem.asDrop
      (fun x => by cases x <;> simp [RequestItem.isKnown, RequestItem.asDrop])
    simp [Dispatcher.dispatch_callback, Dispatcher.classify_eq, hL, hM, hA, hN, hD]
  refine ⟨hwonly, ?_, ?_, ?_⟩
  · intro e he
    rw [hwonly] at he
    rcases List.mem_map.1 he with ⟨t, _, rfl⟩
    exact ⟨t, rfl⟩
  · intro other la h
    simp only [Dispatcher.dispatch_callback, List.mem_append] at h
    rcases h with ((((h | h) | h) | h) | h) | h
    · exact absurd h (Dispatcher.add_not_mem_warns _ _)
    · rcases mem_ite_nil_elim h with ⟨hc, hmem⟩
      rw [Dispatcher.lease_add_eq hmem]
      simpa [List.isEmpty_iff] using hc
    · exact absurd (mem_of_mem_ite_nil h) (Dispatcher.add_not_mem_modack _ _)
    · exact absurd (mem_of_mem_ite_nil h) (Dispatcher.add_not_mem_ack _ _)
    · exact absurd (mem_of_mem_ite_nil h) (Dispatcher.add_not_mem_nack _ _)
    · exact absurd (mem_of_mem_ite_nil h) (Dispatcher.add_not_mem_drop _ _)
  · intro other ra h
    simp only [Dispatcher.dispatch_callback, List.mem_append] at h
    rcases h with ((((h | h) | h) | h) | h) | h
    · exact absurd h (Dispatcher.remove_not_mem_warns _ _)
    · exact absurd (mem_of_mem_ite_nil h) (Dispatcher.remove_not_mem_lease _ _)
    · exact absurd (mem_of_mem_ite_nil h) (Dispatcher.remove_not_mem_modack _ _)
    · rcases mem_ite_nil_elim h with ⟨hc, hmem⟩
      rw [Dispatcher.ack_remove_eq hmem]
      simp only [ne_eq, List.map_eq_nil_iff]
      simpa [List.isEmpty_iff] using hc
    · rcases mem_ite_nil_elim h with ⟨hc, hmem⟩
      rw [Dispatcher.nack_remove_eq hmem]
      simp only [ne_eq, List.map_eq_nil_iff]
      simpa [List.isEmpty_iff] using hc
    · rcases mem_ite_nil_elim h with ⟨hc, hmem⟩
      rw [Dispatcher.drop_remove_eq hmem]
      simp only [ne_eq, List.map_eq_nil_iff]
      simpa [List.isEmpty_iff] using hc

/-- Witness for C10: the all-unknown batch `[unknown "m"]` produces only
the warning. -/
theorem dispatch_callback_nonempty_handlers_witness :
    Dispatcher.dispatch_callback [RequestItem.unknown "m"] = [Event.warn "m"] := by
  rw [(dispatch_callback_nonempty_handlers [RequestItem.unknown "m"] (by decide)).1]
  decide

end PubSub
